import Mathlib

/-!
Verification of the open-author-clock client (src/config.js, src/script.js).

JS strings are modeled as `List Char` (the dataset and tokens are ASCII, so
UTF-16 code units coincide with characters), JS numbers as `Nat`/`Int` with
explicit conversions where JS arithmetic can go negative, fallible async
calls as explicit `Option`/`Except` arguments and results.
-/

/-! ### Data model (config.js and the record shapes of script.js) -/

/-- The `config.timeSync` object of config.js. -/
structure TimeSyncConfig where
  useWebTime : Bool
  maxDiscrepancySeconds : Nat
  fallbackToSystemTime : Bool
deriving DecidableEq

/-- The parts of the `config` object of config.js that the verified core reads. -/
structure Config where
  updateInterval : Nat
  weatherUpdateInterval : Nat
  fadeOutDuration : Nat
  maxQuoteLength : Nat
  timeSync : TimeSyncConfig

/-- The concrete configuration values of config.js. -/
def config : Config :=
  { updateInterval := 60000
    weatherUpdateInterval := 600000
    fadeOutDuration := 1000
    maxQuoteLength := 108
    timeSync :=
      { useWebTime := false
        maxDiscrepancySeconds := 30
        fallbackToSystemTime := true } }

/-- An `{hours, minutes, seconds}` record as produced by `getCurrentTime`. -/
structure TimeData where
  hours : Nat
  minutes : Nat
  seconds : Nat
deriving DecidableEq

/-- A record of the quote dataset (see `data.json` usage in script.js). -/
structure Quote where
  time : List Char
  quote : List Char
  timeString : List Char
  title : List Char
  author : List Char
deriving DecidableEq

/-! ### getCurrentTime (script.js lines 97-161)

The two asynchronous inputs are made explicit: `systemTime` is the local
clock reading (`new Date()`), `webFetch` is `some t` when the network fetch
and parse succeed with time `t`, and `none` when they fail (rejected fetch,
bad JSON, unparseable datetime - all land in the same `catch`). -/

/-- Shallow embedding of `getCurrentTime`. On the success path the
discrepancy is computed from minutes-of-day exactly as in the source
(`Math.abs(systemMinutes - webMinutes)`, then `* 60` against the threshold). -/
def getCurrentTime (cfg : TimeSyncConfig) (systemTime : TimeData)
    (webFetch : Option TimeData) : Except String TimeData :=
  if !cfg.useWebTime then
    .ok systemTime
  else
    match webFetch with
    | some webTime =>
      let systemMinutes : Int := systemTime.hours * 60 + systemTime.minutes
      let webMinutes : Int := webTime.hours * 60 + webTime.minutes
      let discrepancyMinutes : Nat := (systemMinutes - webMinutes).natAbs
      if discrepancyMinutes * 60 > cfg.maxDiscrepancySeconds then
        .ok webTime
      else
        .ok systemTime
    | none =>
      if cfg.fallbackToSystemTime then
        .ok systemTime
      else
        .error "Time unavailable"

/-! ### findQuoteForCurrentTime (script.js lines 174-182) -/

/-- Decimal representation of a JS number holding a Nat (`String(n)`). -/
def natStr (n : Nat) : List Char := (Nat.repr n).toList

/-- JS `s.padStart(2, '0')`. -/
def padStart2 (s : List Char) : List Char :=
  if 2 ≤ s.length then s else List.replicate (2 - s.length) '0' ++ s

/-- The zero-padded `"HH:MM"` template string of `findQuoteForCurrentTime`. -/
def formatHHMM (hours minutes : Nat) : List Char :=
  padStart2 (natStr hours) ++ ':' :: padStart2 (natStr minutes)

/-- Shallow embedding of `findQuoteForCurrentTime`, with the resolved time
passed in explicitly (the source awaits `getCurrentTime` for it). -/
def findQuoteForCurrentTime (quotes : List Quote) (hours minutes : Nat) :
    Option Quote :=
  quotes.find? (fun q => q.time == formatHHMM hours minutes)

/-! ### setupPreciseMinuteTiming (script.js lines 19-32) -/

/-- Shallow embedding of `setupPreciseMinuteTiming`: the one-shot
`setTimeout` delay and the fixed `setInterval` period it installs. -/
def setupPreciseMinuteTiming (resolved : TimeData) : Nat × Nat :=
  ((60 - resolved.seconds) * 1000, 60000)

/-- Absolute time (ms after scheduling) of the k-th quote refresh: the
one-shot delay, then the fixed interval, with no later realignment. -/
def refreshTime (resolved : TimeData) (k : Nat) : Nat :=
  (setupPreciseMinuteTiming resolved).1 + k * (setupPreciseMinuteTiming resolved).2

/-! ### loadQuotes and init (script.js lines 37-84) -/

/-- Outcome of a JS `fetch`: a rejected promise, or a response with its
`ok` flag, `status`, and parsed body. -/
inductive FetchResult (α : Type) where
  | rejected : FetchResult α
  | resolved (ok : Bool) (status : Nat) (body : α) : FetchResult α

/-- Shallow embedding of `loadQuotes`: throws on a rejected fetch or a
non-ok HTTP status, otherwise yields the parsed dataset. -/
def loadQuotes : FetchResult (List Quote) → Except String (List Quote)
  | .rejected => .error "fetch failed"
  | .resolved ok status body =>
    if ok then .ok body else .error ("HTTP error! status: " ++ Nat.repr status)

/-- Observable outcome of `init`: whether the fatal `displayError` banner
was shown, and whether the minute-refresh timers were installed. -/
structure InitResult where
  fatalErrorShown : Bool
  refreshScheduled : Bool
deriving DecidableEq

/-- Shallow embedding of `init`'s control flow. `loadQuotes` is awaited
first; a throw lands in the catch (fatal error, nothing scheduled).
`updateDateTimeDisplay` and `updateWeatherDisplay` catch their own errors.
The initial `await updateQuote()` calls `findQuoteForCurrentTime`, which
awaits `getCurrentTime`; a `Time unavailable` throw there propagates to
`init`'s catch, so it too ends in the fatal state with nothing scheduled.
Only when both steps succeed does `setupPreciseMinuteTiming` install the
refresh timers. -/
def init (cfg : TimeSyncConfig) (dataset : FetchResult (List Quote))
    (systemTime : TimeData) (webFetch : Option TimeData) : InitResult :=
  match loadQuotes dataset with
  | .error _ => ⟨true, false⟩
  | .ok _ =>
    match getCurrentTime cfg systemTime webFetch with
    | .error _ => ⟨true, false⟩
    | .ok _ => ⟨false, true⟩

/-! ### smartTruncateQuote (script.js lines 355-414)

Index arithmetic on JS strings, with `Int` wherever the JS expression can
be negative (`Math.floor((maxLength - timeLength) / 2)`,
`endIndex - 15`). -/

/-- JS `s.toLowerCase()` restricted to ASCII. -/
def lowerStr (s : List Char) : List Char := s.map Char.toLower

/-- Whether `needle` occurs in `hay` starting at index `i`. -/
def occursAt (hay needle : List Char) (i : Nat) : Bool :=
  (hay.drop i).take needle.length == needle

/-- Scan step-count for the first occurrence of `needle` in `hay` at an
index `≥ i` (the loop of JS `hay.indexOf(needle)` when started at `i`).
The structural `fuel` argument bounds the remaining loop iterations; the
wrapper below always supplies enough. -/
def findOccFromAux (hay needle : List Char) : Nat → Nat → Option Nat
  | 0, _ => none
  | fuel + 1, i =>
    if i + needle.length ≤ hay.length then
      if occursAt hay needle i then some i
      else findOccFromAux hay needle fuel (i + 1)
    else
      none

/-- First occurrence of `needle` in `hay` at an index `≥ i`. -/
def findOccFrom (hay needle : List Char) (i : Nat) : Option Nat :=
  findOccFromAux hay needle (hay.length + 1 - i) i

/-- JS `hay.indexOf(needle)` (with `none` for `-1`). -/
def strIndexOf (hay needle : List Char) : Option Nat := findOccFrom hay needle 0

/-- Scan for JS `text.indexOf(ch, i)`, with a structural fuel bound on
the remaining iterations. -/
def findCharFromAux (text : List Char) (ch : Char) : Nat → Nat → Option Nat
  | 0, _ => none
  | fuel + 1, i =>
    if h : i < text.length then
      if text.get ⟨i, h⟩ = ch then some i
      else findCharFromAux text ch fuel (i + 1)
    else
      none

/-- JS `text.indexOf(ch, i)` for a single character (with `none` for `-1`). -/
def findCharFrom (text : List Char) (ch : Char) (i : Nat) : Option Nat :=
  findCharFromAux text ch (text.length - i) i

/-- JS `text.lastIndexOf(ch, i)` for a single character: the largest index
`≤ i` holding `ch` (with `none` for `-1`). -/
def rfindCharLe (text : List Char) (ch : Char) (i : Nat) : Option Nat :=
  if text.get? i = some ch then some i
  else
    match i with
    | 0 => none
    | j + 1 => rfindCharLe text ch j

/-- The character budget hardcoded in `smartTruncateQuote`
(`const maxLength = 120`). -/
def maxLength : Nat := 120

/-- The window-placement arithmetic of `smartTruncateQuote` (lines
374-391): center a `maxLength` window on the token at index `i` of a text
of length `len`, clamp to the bounds, shift into bounds at either edge. -/
def windowRaw (len L i : Nat) : Nat × Nat :=
  let c : Int := Int.fdiv ((maxLength : Int) - (L : Int)) 2
  let s0 : Nat := ((i : Int) - c).toNat
  let e0 : Nat := min len (s0 + maxLength)
  let p1 : Nat × Nat :=
    if e0 = len ∧ maxLength < len then (len - maxLength, len) else (s0, e0)
  let p2 : Nat × Nat :=
    if p1.1 = 0 ∧ maxLength < len then (p1.1, min len maxLength) else p1
  let e3 : Nat := if maxLength < p2.2 - p2.1 then p2.1 + maxLength else p2.2
  (p2.1, e3)

/-- Word-boundary snap of the window start (lines 394-399): if the start
is not at the text's beginning and the first space at or after it lies
within 15 characters, move the start to just past that space. -/
def snapStart (text : List Char) (s : Nat) : Nat :=
  if 0 < s then
    match findCharFrom text ' ' s with
    | some p => if p < s + 15 then p + 1 else s
    | none => s
  else s

/-- Word-boundary snap of the window end (lines 401-406): if the end is
not at the text's end and the last space at or before it lies within 15
characters, move the end back to that space. -/
def snapEnd (text : List Char) (e : Nat) : Nat :=
  if e < text.length then
    match rfindCharLe text ' ' e with
    | some p => if (e : Int) - 15 < (p : Int) then p else e
    | none => e
  else e

/-- The final window of `smartTruncateQuote`: raw placement, then the two
word-boundary snaps. -/
def truncWindow (text token : List Char) (i : Nat) : Nat × Nat :=
  let w := windowRaw text.length token.length i
  (snapStart text w.1, snapEnd text w.2)

/-- JS `s.substring(a, b)` (clamps to the bounds and swaps a larger start
with a smaller end). -/
def jsSubstring (s : List Char) (a b : Nat) : List Char :=
  (s.drop (min a b)).take (max a b - min a b)

/-- The `'...'` marker appended by the truncation code. -/
def ellipsis : List Char := ['.', '.', '.']

/-- Shallow embedding of `smartTruncateQuote`. -/
def smartTruncateQuote (quoteText timeString : List Char) : List Char :=
  if quoteText.length ≤ maxLength then
    quoteText
  else
    match strIndexOf (lowerStr quoteText) (lowerStr timeString) with
    | none => jsSubstring quoteText 0 (maxLength - 3) ++ ellipsis
    | some timeIndex =>
      let w := truncWindow quoteText timeString timeIndex
      (if 0 < w.1 then ellipsis else []) ++ jsSubstring quoteText w.1 w.2 ++
        (if w.2 < quoteText.length then ellipsis else [])

/-! ### highlightTimeString (script.js lines 416-421)

The regex is built by escaping every metacharacter of the token, so it
matches the token literally, case-insensitively (`'gi'`), and the
replacement wraps each match in `<strong>` tags. The embedding scans the
text left to right for non-overlapping case-insensitive occurrences; an
empty token matches (emptily) at every position, as the empty regex
does. -/

/-- Wrap a matched slice in the `<strong>` tags of the `$1` replacement. -/
def strongWrap (s : List Char) : List Char :=
  "<strong>".toList ++ s ++ "</strong>".toList

/-- Replacement scan of `quoteText.replace(regex, '<strong>$1</strong>')`,
with `tl` the lowered token. -/
def hlAux (tl : List Char) (s : List Char) : List Char :=
  if tl = [] then
    match s with
    | [] => strongWrap []
    | c :: rest => strongWrap [] ++ c :: hlAux tl rest
  else
    if h : lowerStr (s.take tl.length) = tl then
      strongWrap (s.take tl.length) ++ hlAux tl (s.drop tl.length)
    else
      match s with
      | [] => []
      | c :: rest => c :: hlAux tl rest
termination_by s.length
decreasing_by
  · simp
  · have hlen : (s.take tl.length).length = tl.length := by rw [← h]; simp [lowerStr]
    simp at hlen
    have htl : tl.length ≠ 0 := by
      intro hz
      exact absurd (List.eq_nil_of_length_eq_zero hz) (by assumption)
    simp
    omega
  · simp

/-- Shallow embedding of `highlightTimeString`. -/
def highlightTimeString (quoteText timeString : List Char) : List Char :=
  hlAux (lowerStr timeString) quoteText

/-! ### updateQuote's rendering of a matched quote (script.js lines 453-458) -/

/-- The innerHTML written for a matched quote:
`` `"${highlightTimeString(smartTruncateQuote(q.quote, q.timeString), q.timeString)}"` ``. -/
def renderQuoteHTML (q : Quote) : List Char :=
  '"' :: (highlightTimeString (smartTruncateQuote q.quote q.timeString) q.timeString
    ++ ['"'])

/-- One display update of the quote element: the new innerHTML is computed
from the raw quote record only; the current contents of the element are
ignored. -/
def updateQuoteDisplay (q : Quote) (_currentHTML : List Char) : List Char :=
  renderQuoteHTML q

/-! ### Helper lemmas about the scanning primitives -/

/-- A hit of the occurrence scan lies at or after the start index and
fits inside the haystack. -/
theorem findOccFromAux_bounds (hay needle : List Char) :
    ∀ fuel i j, findOccFromAux hay needle fuel i = some j →
      i ≤ j ∧ j + needle.length ≤ hay.length := by
  intro fuel
  induction fuel with
  | zero =>
    intro i j h
    exact absurd h (by simp [findOccFromAux])
  | succ fuel ih =>
    intro i j h
    simp only [findOccFromAux] at h
    split at h
    · split at h
      · cases h
        refine ⟨Nat.le_refl _, by omega⟩
      · have := ih (i + 1) j h
        omega
    · exact absurd h (by simp)

/-- A hit of `strIndexOf` fits inside the haystack. -/
theorem strIndexOf_bounds (hay needle : List Char) (j : Nat)
    (h : strIndexOf hay needle = some j) : j + needle.length ≤ hay.length :=
  (findOccFromAux_bounds hay needle (hay.length + 1 - 0) 0 j h).2

/-- A hit of the character scan lies at or after the start index. -/
theorem findCharFromAux_ge (text : List Char) (ch : Char) :
    ∀ fuel i p, findCharFromAux text ch fuel i = some p → i ≤ p := by
  intro fuel
  induction fuel with
  | zero =>
    intro i p h
    exact absurd h (by simp [findCharFromAux])
  | succ fuel ih =>
    intro i p h
    simp only [findCharFromAux] at h
    split at h
    · split at h
      · cases h; exact Nat.le_refl _
      · have := ih (i + 1) p h
        omega
    · exact absurd h (by simp)

/-- A hit of `findCharFrom` lies at or after the start index. -/
theorem findCharFrom_ge (text : List Char) (ch : Char) (i p : Nat)
    (h : findCharFrom text ch i = some p) : i ≤ p :=
  findCharFromAux_ge text ch (text.length - i) i p h

/-- A hit of `rfindCharLe` lies at or before the start index. -/
theorem rfindCharLe_le (text : List Char) (ch : Char) :
    ∀ i p, rfindCharLe text ch i = some p → p ≤ i := by
  intro i
  induction i with
  | zero =>
    intro p h
    rw [rfindCharLe] at h
    split at h
    · cases h; exact Nat.le_refl 0
    · exact absurd h (by simp)
  | succ j ih =>
    intro p h
    rw [rfindCharLe] at h
    split at h
    · cases h; exact Nat.le_refl _
    · exact Nat.le_succ_of_le (ih p h)

/-! ### Window arithmetic lemmas -/

/-- For over-budget texts the raw window always spans exactly the budget
and stays inside the text. -/
theorem windowRaw_span (len L i : Nat) (hlen : 120 < len) :
    (windowRaw len L i).2 = (windowRaw len L i).1 + 120 ∧
    (windowRaw len L i).2 ≤ len := by
  unfold windowRaw maxLength
  simp only [Nat.min_def]
  split_ifs <;> omega

/-- For over-budget texts and tokens of at most 90 characters whose
occurrence fits in the text, the raw window keeps a 15-character margin
between each window edge and the token (or the edge is already at the
corresponding edge of the text). -/
theorem windowRaw_margin (len L i : Nat) (hlen : 120 < len)
    (hL : L ≤ 90) :
    ((windowRaw len L i).1 = 0 ∨ (windowRaw len L i).1 + 15 ≤ i) ∧
    ((windowRaw len L i).2 = len ∨ i + L + 15 ≤ (windowRaw len L i).2) := by
  unfold windowRaw maxLength
  rw [Int.fdiv_eq_ediv _ (by omega)]
  simp only [Nat.min_def]
  split_ifs <;> omega

/-- The snapped start moves forward by at most 15 and never moves a start
that sits at the text's beginning. -/
theorem snapStart_bounds (text : List Char) (s : Nat) :
    s ≤ snapStart text s ∧ snapStart text s ≤ s + 15 ∧
    (s = 0 → snapStart text s = 0) := by
  unfold snapStart
  by_cases h0 : 0 < s
  · rw [if_pos h0]
    cases hfc : findCharFrom text ' ' s with
    | none =>
      dsimp only
      exact ⟨Nat.le_refl _, by omega, fun hz => by omega⟩
    | some p =>
      have hp := findCharFrom_ge text ' ' s p hfc
      dsimp only
      by_cases hlt : p < s + 15
      · rw [if_pos hlt]
        exact ⟨by omega, by omega, fun hz => by omega⟩
      · rw [if_neg hlt]
        exact ⟨Nat.le_refl _, by omega, fun hz => by omega⟩
  · rw [if_neg h0]
    exact ⟨Nat.le_refl _, by omega, fun hz => hz⟩

/-- The snapped end moves backward by at most 14 and never moves an end
that sits at (or beyond) the text's end. -/
theorem snapEnd_bounds (text : List Char) (e : Nat) :
    snapEnd text e ≤ e ∧ e ≤ snapEnd text e + 14 ∧
    (¬ e < text.length → snapEnd text e = e) := by
  unfold snapEnd
  by_cases hin : e < text.length
  · rw [if_pos hin]
    cases hfc : rfindCharLe text ' ' e with
    | none =>
      dsimp only
      exact ⟨Nat.le_refl _, by omega, fun hnot => absurd hin hnot⟩
    | some p =>
      have hp := rfindCharLe_le text ' ' e p hfc
      dsimp only
      by_cases hlt : (e : Int) - 15 < (p : Int)
      · rw [if_pos hlt]
        exact ⟨by omega, by omega, fun hnot => absurd hin hnot⟩
      · rw [if_neg hlt]
        exact ⟨Nat.le_refl _, by omega, fun hnot => absurd hin hnot⟩
  · rw [if_neg hin]
    exact ⟨Nat.le_refl _, by omega, fun _ => rfl⟩

/-- Combined window specification: for over-budget texts the final window
is well-ordered, spans at most the budget, stays in the text, and - for
tokens of at most 90 characters occurring at index `i` - keeps both edges
outside the interior of the token occurrence. -/
theorem truncWindow_spec (text token : List Char) (i : Nat)
    (hlen : 120 < text.length) :
    (truncWindow text token i).1 ≤ (truncWindow text token i).2 ∧
    (truncWindow text token i).2 - (truncWindow text token i).1 ≤ 120 ∧
    (truncWindow text token i).2 ≤ text.length ∧
    (token.length ≤ 90 → i + token.length ≤ text.length →
      ((truncWindow text token i).1 ≤ i ∨
        i + token.length ≤ (truncWindow text token i).1) ∧
      ((truncWindow text token i).2 ≤ i ∨
        i + token.length ≤ (truncWindow text token i).2)) := by
  obtain ⟨hspan, hle⟩ := windowRaw_span text.length token.length i hlen
  obtain ⟨hs1, hs2, hs0⟩ :=
    snapStart_bounds text (windowRaw text.length token.length i).1
  obtain ⟨he1, he2, heid⟩ :=
    snapEnd_bounds text (windowRaw text.length token.length i).2
  simp only [truncWindow]
  refine ⟨by omega, by omega, by omega, fun hL hocc => ?_⟩
  obtain ⟨hm1, hm2⟩ := windowRaw_margin text.length token.length i hlen hL
  constructor
  · rcases hm1 with h | h
    · left
      have := hs0 h
      omega
    · left
      omega
  · rcases hm2 with h | h
    · right
      have := heid (by omega)
      omega
    · right
      omega

/-! ### Claim theorems -/

/-- C2: when web time is enabled and the fetch succeeds, `getCurrentTime`
computes the discrepancy as the absolute difference of the local and
network minutes-of-day times 60 seconds, and returns the network time
exactly when that exceeds `maxDiscrepancySeconds`, otherwise the local
time. -/
theorem getCurrentTime_webDiscrepancy (cfg : TimeSyncConfig)
    (sys web : TimeData) (h : cfg.useWebTime = true) :
    getCurrentTime cfg sys (some web) =
      .ok (if ((sys.hours * 60 + sys.minutes : Int) -
              (web.hours * 60 + web.minutes : Int)).natAbs * 60 >
              cfg.maxDiscrepancySeconds
           then web else sys) := by
  simp only [getCurrentTime, h, Bool.not_true, Bool.false_eq_true, if_false]
  split_ifs <;> rfl

/-- C2 witness: the spec's two scenarios - local 12:00:00 with network
12:00:20 and threshold 30 returns local; local 12:00:00 with network
12:05:00 and threshold 30 returns network. -/
theorem getCurrentTime_webDiscrepancy_witness :
    getCurrentTime ⟨true, 30, true⟩ ⟨12, 0, 0⟩ (some ⟨12, 0, 20⟩) =
      .ok ⟨12, 0, 0⟩ ∧
    getCurrentTime ⟨true, 30, true⟩ ⟨12, 0, 0⟩ (some ⟨12, 5, 0⟩) =
      .ok ⟨12, 5, 0⟩ :=
  ⟨(getCurrentTime_webDiscrepancy ⟨true, 30, true⟩ ⟨12, 0, 0⟩ ⟨12, 0, 20⟩
      rfl).trans rfl,
   (getCurrentTime_webDiscrepancy ⟨true, 30, true⟩ ⟨12, 0, 0⟩ ⟨12, 5, 0⟩
      rfl).trans rfl⟩

/-- C3: `getCurrentTime` signals `Time unavailable` exactly when web time
is enabled, the fetch fails, and fallback to system time is disabled;
with web time disabled it returns the local time immediately, and on
fetch failure with fallback enabled it returns the local time. -/
theorem getCurrentTime_unavailable_policy (cfg : TimeSyncConfig)
    (sys : TimeData) (web : Option TimeData) :
    ((∃ e, getCurrentTime cfg sys web = .error e) ↔
      cfg.useWebTime = true ∧ web = none ∧ cfg.fallbackToSystemTime = false) ∧
    (cfg.useWebTime = false → getCurrentTime cfg sys web = .ok sys) ∧
    (cfg.fallbackToSystemTime = true → getCurrentTime cfg sys none = .ok sys) := by
  obtain ⟨uwt, thr, fb⟩ := cfg
  refine ⟨?_, ?_, ?_⟩
  · cases uwt <;> cases fb <;> rcases web with _ | w <;>
      simp [getCurrentTime] <;> split <;> simp
  · intro h
    subst h
    simp [getCurrentTime]
  · intro h
    subst h
    cases uwt <;> simp [getCurrentTime]

/-- C3 witness: with web time required, a failed fetch and no fallback,
the concrete call fails; with web time disabled it returns the local
time. -/
theorem getCurrentTime_unavailable_policy_witness :
    (∃ e, getCurrentTime ⟨true, 30, false⟩ ⟨12, 0, 0⟩ none = .error e) ∧
    getCurrentTime ⟨false, 30, true⟩ ⟨12, 0, 0⟩ none = .ok ⟨12, 0, 0⟩ :=
  ⟨(getCurrentTime_unavailable_policy ⟨true, 30, false⟩ ⟨12, 0, 0⟩
      none).1.mpr ⟨rfl, rfl, rfl⟩,
   (getCurrentTime_unavailable_policy ⟨false, 30, true⟩ ⟨12, 0, 0⟩
      none).2.1 rfl⟩

/-- C10: the comparison works at whole-minute granularity - equal hours
and minutes always yield the local time whatever the seconds and the
threshold, while adjacent minutes-of-day (one second apart across a
minute boundary) give a 60-second discrepancy, so any threshold below 60
yields the network time. -/
theorem getCurrentTime_minute_granularity (cfg : TimeSyncConfig)
    (sys web : TimeData) (hweb : cfg.useWebTime = true) :
    (sys.hours = web.hours → sys.minutes = web.minutes →
      getCurrentTime cfg sys (some web) = .ok sys) ∧
    (((sys.hours * 60 + sys.minutes : Int) -
        (web.hours * 60 + web.minutes : Int)).natAbs = 1 →
      cfg.maxDiscrepancySeconds < 60 →
      getCurrentTime cfg sys (some web) = .ok web) := by
  constructor
  · intro hh hm
    rw [getCurrentTime_webDiscrepancy cfg sys web hweb, hh, hm]
    rw [if_neg (by omega)]
  · intro hd hthr
    rw [getCurrentTime_webDiscrepancy cfg sys web hweb]
    rw [hd] at *
    rw [if_pos (by omega)]

/-- C10 witness: local 12:00:59 and network 12:01:00 (one second apart,
straddling a minute boundary) with threshold 30 yield the network time;
local 12:00:00 and network 12:00:45 (same minute) yield the local time. -/
theorem getCurrentTime_minute_granularity_witness :
    getCurrentTime ⟨true, 30, true⟩ ⟨12, 0, 59⟩ (some ⟨12, 1, 0⟩) =
      .ok ⟨12, 1, 0⟩ ∧
    getCurrentTime ⟨true, 30, true⟩ ⟨12, 0, 0⟩ (some ⟨12, 0, 45⟩) =
      .ok ⟨12, 0, 0⟩ :=
  ⟨(getCurrentTime_minute_granularity ⟨true, 30, true⟩ ⟨12, 0, 59⟩
      ⟨12, 1, 0⟩ rfl).2 (by decide) (by decide),
   (getCurrentTime_minute_granularity ⟨true, 30, true⟩ ⟨12, 0, 0⟩
      ⟨12, 0, 45⟩ rfl).1 rfl rfl⟩

/-- C6: the first refresh fires after a one-shot delay of exactly
`(60 - seconds) * 1000` milliseconds computed from the resolved time's
seconds field, and every later refresh follows the previous one by a
fixed 60000 ms period - the minute-boundary realignment happens only
once, at startup. -/
theorem minuteTiming_schedule (t : TimeData) (k : Nat) :
    refreshTime t 0 = (60 - t.seconds) * 1000 ∧
    refreshTime t (k + 1) = refreshTime t k + 60000 ∧
    (setupPreciseMinuteTiming t).1 = (60 - t.seconds) * 1000 ∧
    (setupPreciseMinuteTiming t).2 = 60000 := by
  unfold refreshTime setupPreciseMinuteTiming
  refine ⟨by omega, by omega, rfl, rfl⟩

/-- C8: re-running the quote display update on the same raw quote record
produces the same innerHTML as running it once - the highlighting never
accumulates markup, because each update recomputes
`highlightTimeString (smartTruncateQuote ...)` from the raw quote text
and ignores the currently displayed (already highlighted) contents. -/
theorem highlight_no_accumulation (q : Quote) (currentHTML : List Char) :
    updateQuoteDisplay q (updateQuoteDisplay q currentHTML) =
      updateQuoteDisplay q currentHTML := rfl

/-- C4: a quote text that fits the character budget whole is returned
unchanged by `smartTruncateQuote`, whatever the time token. -/
theorem smartTruncateQuote_short_id (text token : List Char)
    (h : text.length ≤ 120) : smartTruncateQuote text token = text := by
  unfold smartTruncateQuote maxLength
  rw [if_pos h]

/-- The spec's example quote (its length is in fact 87 characters, not
the 97 the spec states - still under the budget). -/
def c4Quote : List Char :=
  "A man who dares to waste one hour of time has not discovered the value of life at 09:41".toList

/-- C4 witness: the spec's example quote with token "9:41" is returned
unchanged. -/
theorem smartTruncateQuote_short_id_witness :
    c4Quote.length ≤ 120 ∧ smartTruncateQuote c4Quote "9:41".toList = c4Quote :=
  ⟨by decide, smartTruncateQuote_short_id c4Quote ("9:41".toList) (by decide)⟩

/-- C9: the budget of `smartTruncateQuote` is the hardcoded constant 120,
not `config.maxQuoteLength` (108): every text of length 109 to 120 is
returned unchanged. (`smartTruncateQuote` takes no configuration input at
all - its definition mentions only the literal budget - so changing
`config.maxQuoteLength` cannot affect its output.) -/
theorem smartTruncate_ignores_maxQuoteLength (text token : List Char)
    (h1 : 109 ≤ text.length) (h2 : text.length ≤ 120) :
    smartTruncateQuote text token = text ∧
    maxLength = 120 ∧ config.maxQuoteLength = 108 := by
  refine ⟨?_, rfl, rfl⟩
  unfold smartTruncateQuote maxLength
  rw [if_pos h2]

/-- A 110-character text, over `config.maxQuoteLength` but under the
actual budget. -/
def c9Text : List Char := List.replicate 110 'x'

/-- C9 witness: a 110-character text (over 108) is returned unchanged. -/
theorem smartTruncate_ignores_maxQuoteLength_witness :
    109 ≤ c9Text.length ∧ c9Text.length ≤ 120 ∧
    (smartTruncateQuote c9Text "09:41".toList = c9Text ∧
      maxLength = 120 ∧ config.maxQuoteLength = 108) :=
  ⟨by decide, by decide,
   smartTruncate_ignores_maxQuoteLength c9Text ("09:41".toList)
     (by decide) (by decide)⟩

/-- C5: `findQuoteForCurrentTime` is an exact-match lookup on the
zero-padded "HH:MM" string: it returns the first record whose `time`
field equals it (first match wins under duplicates), and `none` - not an
error - when no record matches; there is no approximate fallback. -/
theorem findQuote_exact_first (l1 l2 : List Quote) (q : Quote)
    (hours minutes : Nat)
    (hskip : ∀ q' ∈ l1, q'.time ≠ formatHHMM hours minutes)
    (hq : q.time = formatHHMM hours minutes) :
    findQuoteForCurrentTime (l1 ++ q :: l2) hours minutes = some q ∧
    ∀ qs : List Quote, (∀ q' ∈ qs, q'.time ≠ formatHHMM hours minutes) →
      findQuoteForCurrentTime qs hours minutes = none := by
  constructor
  · induction l1 with
    | nil =>
      apply List.find?_cons_of_pos
      simp [hq]
    | cons a t ih =>
      have ha : ¬(a.time == formatHHMM hours minutes) = true := by
        have := hskip a (by simp)
        simp [this]
      rw [List.cons_append]
      rw [show findQuoteForCurrentTime (a :: (t ++ q :: l2)) hours minutes =
        findQuoteForCurrentTime (t ++ q :: l2) hours minutes from
        List.find?_cons_of_neg _ ha]
      exact ih (fun q' hq' => hskip q' (by simp [hq']))
  · intro qs hqs
    apply List.find?_eq_none.mpr
    intro x hx
    simp [hqs x hx]

/-- A dataset record for 08:00. -/
def quoteA : Quote :=
  ⟨"08:00".toList, "an eight o'clock line".toList, "8:00".toList,
   "Book A".toList, "Author A".toList⟩

/-- A dataset record for 09:41 (the spec's lookup example). -/
def quoteB : Quote :=
  ⟨"09:41".toList, "the morning stood at 9:41 precisely".toList,
   "9:41".toList, "Book B".toList, "Author B".toList⟩

/-- A record keyed 09:42, used only to instantiate the lookup theorem at
a time missing from the dataset. -/
def quoteC : Quote :=
  ⟨"09:42".toList, "x".toList, "x".toList, "x".toList, "x".toList⟩

/-- C5 witness: looking up 09:41 in a dataset holding it returns that
record; looking up 09:42 in a dataset without it returns `none`. -/
theorem findQuote_exact_first_witness :
    findQuoteForCurrentTime [quoteA, quoteB] 9 41 = some quoteB ∧
    findQuoteForCurrentTime [quoteA, quoteB] 9 42 = none :=
  ⟨(findQuote_exact_first [quoteA] [] quoteB 9 41 (by decide) (by decide)).1,
   (findQuote_exact_first [] [] quoteC 9 42 (by decide) (by decide)).2
     [quoteA, quoteB] (by decide)⟩

/-- C7 counterexample: dataset load failure is not the only failure that
aborts startup. With web time enabled, fallback disabled and the time
fetch failing, `init` reaches the fatal error display and schedules no
refresh even though the dataset loaded successfully. -/
theorem init_aborts_without_dataset_failure :
    loadQuotes (.resolved true 200 [quoteB]) = .ok [quoteB] ∧
    (init ⟨true, 30, false⟩ (.resolved true 200 [quoteB]) ⟨12, 0, 0⟩
        none).fatalErrorShown = true ∧
    (init ⟨true, 30, false⟩ (.resolved true 200 [quoteB]) ⟨12, 0, 0⟩
        none).refreshScheduled = false :=
  ⟨rfl, rfl, rfl⟩

/-- C7 (amended): a failed dataset fetch (e.g. HTTP 404) puts `init` in
the fatal startup-error state with no refresh cycle scheduled; the fatal
state is reached exactly when the dataset load fails or the initial
quote update's time resolution fails (web time enabled, fetch failed,
fallback disabled), and the refresh timers are installed exactly in the
non-fatal case. -/
theorem init_fatal_spec (cfg : TimeSyncConfig) (ds : FetchResult (List Quote))
    (sys : TimeData) (web : Option TimeData) :
    ((init cfg ds sys web).fatalErrorShown = true ↔
      (∃ e, loadQuotes ds = .error e) ∨
      (∃ e, getCurrentTime cfg sys web = .error e)) ∧
    ((init cfg ds sys web).refreshScheduled = true ↔
      (init cfg ds sys web).fatalErrorShown = false) ∧
    (∀ status body,
      (init cfg (.resolved false status body) sys web).fatalErrorShown = true ∧
      (init cfg (.resolved false status body) sys web).refreshScheduled = false) := by
  refine ⟨?_, ?_, ?_⟩
  · unfold init
    rcases hld : loadQuotes ds with e | qs
    · simp
    · rcases hct : getCurrentTime cfg sys web with e2 | t <;> simp
  · unfold init
    rcases hld : loadQuotes ds with e | qs
    · simp
    · rcases hct : getCurrentTime cfg sys web with e2 | t <;> simp
  · intro status body
    unfold init loadQuotes
    simp

/-- C7 witness: a rejected dataset fetch yields the fatal state with no
refresh scheduled, under the default configuration. -/
theorem init_fatal_spec_witness :
    (init ⟨false, 30, true⟩ .rejected ⟨12, 0, 0⟩ none).fatalErrorShown = true ∧
    (init ⟨false, 30, true⟩ .rejected ⟨12, 0, 0⟩ none).refreshScheduled = false := by
  have h := init_fatal_spec ⟨false, 30, true⟩ .rejected ⟨12, 0, 0⟩ none
  have hf : (init ⟨false, 30, true⟩ .rejected ⟨12, 0, 0⟩
      none).fatalErrorShown = true := h.1.mpr (.inl ⟨"fetch failed", rfl⟩)
  refine ⟨hf, ?_⟩
  have := h.2.1
  rcases hb : (init ⟨false, 30, true⟩ .rejected ⟨12, 0, 0⟩
      none).refreshScheduled with _ | _
  · rfl
  · rw [hb] at this
    rw [this.mp rfl] at hf
    cases hf

set_option maxRecDepth 100000 in
/-- C1 counterexample: with a 100-character token (containing a space)
occurring at index 20 of a 135-character text, the case-insensitive
match is found at 20, but the word-boundary snap moves the window start
to 25 - strictly inside the token occurrence [20, 120) - so the token is
split across the truncation boundary and the leading "half " of the
token is absent from the returned text. -/
theorem smartTruncateQuote_splits_long_token :
    (List.replicate 20 'b' ++ "half ".toList ++ List.replicate 95 'a' ++
        List.replicate 15 'b').length > 120 ∧
    strIndexOf
      (lowerStr (List.replicate 20 'b' ++ "half ".toList ++
        List.replicate 95 'a' ++ List.replicate 15 'b'))
      (lowerStr ("half ".toList ++ List.replicate 95 'a')) = some 20 ∧
    (truncWindow
      (List.replicate 20 'b' ++ "half ".toList ++ List.replicate 95 'a' ++
        List.replicate 15 'b')
      ("half ".toList ++ List.replicate 95 'a') 20).1 = 25 ∧
    20 < 25 ∧ 25 < 20 + ("half ".toList ++ List.replicate 95 'a').length ∧
    smartTruncateQuote
      (List.replicate 20 'b' ++ "half ".toList ++ List.replicate 95 'a' ++
        List.replicate 15 'b')
      ("half ".toList ++ List.replicate 95 'a') =
      ellipsis ++ (List.replicate 95 'a' ++ List.replicate 10 'b') ++ ellipsis := by
  refine ⟨by decide, by decide, by decide, by decide, by decide, by decide⟩

/-- C1 (amended): for every quote text longer than the 120-character
budget the result of `smartTruncateQuote` has length at most
120 + 2 * 3 = 126; and provided the time token is at most 90 characters
long, neither edge of the truncation window falls strictly inside the
case-insensitively matched token occurrence (the window was centered on
it), so that occurrence is never split. (The unrestricted claim fails:
see the 100-character-token counterexample.) -/
theorem smartTruncateQuote_fits (text token : List Char)
    (h : 120 < text.length) :
    (smartTruncateQuote text token).length ≤ 126 ∧
    (token.length ≤ 90 →
      ∀ i, strIndexOf (lowerStr text) (lowerStr token) = some i →
        ((truncWindow text token i).1 ≤ i ∨
          i + token.length ≤ (truncWindow text token i).1) ∧
        ((truncWindow text token i).2 ≤ i ∨
          i + token.length ≤ (truncWindow text token i).2)) := by
  constructor
  · unfold smartTruncateQuote maxLength
    rw [if_neg (by omega)]
    cases hidx : strIndexOf (lowerStr text) (lowerStr token) with
    | none =>
      dsimp only
      simp only [jsSubstring, ellipsis, List.length_append, List.length_take,
        List.length_drop]
      simp only [Nat.min_def, Nat.max_def]
      split_ifs <;> simp <;> omega
    | some i =>
      dsimp only
      have hspec := truncWindow_spec text token i h
      simp only [jsSubstring, List.length_append, List.length_take,
        List.length_drop, ellipsis, apply_ite List.length]
      simp only [Nat.min_def, Nat.max_def]
      split_ifs <;> simp <;> omega
  · intro hL i hidx
    have hocc : i + token.length ≤ text.length := by
      have hb := strIndexOf_bounds (lowerStr text) (lowerStr token) i hidx
      simpa [lowerStr] using hb
    exact (truncWindow_spec text token i h).2.2.2 hL hocc

/-- A 124-character text with the token "09:41" at index 3. -/
def c1Text : List Char := "at 09:41 ".toList ++ List.replicate 115 'x'

set_option maxRecDepth 100000 in
/-- C1 witness: the amended bound and no-split guarantee at a concrete
over-budget text with a short token. -/
theorem smartTruncateQuote_fits_witness :
    120 < c1Text.length ∧ (smartTruncateQuote c1Text "09:41".toList).length ≤ 126 :=
  ⟨by decide, (smartTruncateQuote_fits c1Text ("09:41".toList) (by decide)).1⟩
